import Mathlib

/-!
Verification of the web-crawler core of `services/engine/agents/crawler.py`.

Python strings are modelled as `String`/`List Char` (ASCII case mapping and
the ASCII whitespace set; the pages under test are treated at that level).
`httpx`/network effects are modelled by fetch oracles: a function giving, for
each URL (and, for the retry wrapper, each attempt number), the outcome that
`_fetch_page` would produce.  `BeautifulSoup` extraction is abstracted by
oracle parameters where its output is irrelevant, and the pure text pipeline
of `_get_main_content` (lines 338-340) is embedded directly on the text of
the selected region.
-/

namespace Crawler

-- ── Python `str` primitives ──────────────────────────────────────────────────

/-- Whitespace recognised by Python's argument-less `str.split` /
`str.strip`, restricted to ASCII: space, tab, newline, carriage return,
vertical tab (0x0b) and form feed (0x0c). -/
def isPySpace (c : Char) : Bool :=
  c = ' ' || c = '\t' || c = '\n' || c = '\r' || c = Char.ofNat 11 || c = Char.ofNat 12

/-- Negation of `isPySpace`, the predicate satisfied by word characters. -/
def nonspace (c : Char) : Bool := !isPySpace c

/-- Python `s.split()` (no separator argument): maximal runs of
non-whitespace characters, with leading/trailing/repeated whitespace
discarded. -/
def splitWs : List Char → List (List Char)
  | [] => []
  | c :: cs =>
    if isPySpace c then splitWs cs
    else (c :: cs.takeWhile nonspace) :: splitWs (cs.dropWhile nonspace)
termination_by l => l.length
decreasing_by
  · simp only [List.length_cons]
    exact Nat.lt_succ_of_le (Nat.le_refl _)
  · simp only [List.length_cons]
    exact Nat.lt_succ_of_le (List.dropWhile_sublist _).length_le

/-- Python `" ".join(words)` on character lists. -/
def joinWords : List (List Char) → List Char
  | [] => []
  | [w] => w
  | w :: v :: ws => w ++ ' ' :: joinWords (v :: ws)

/-- Python `" ".join(s.split())`: collapse every whitespace run to one space
and trim both ends. -/
def collapse (l : List Char) : List Char := joinWords (splitWs l)

/-- Python `s.strip()`: drop whitespace from both ends. -/
def pyStrip (l : List Char) : List Char :=
  ((l.dropWhile isPySpace).reverse.dropWhile isPySpace).reverse

/-- Python `s.rstrip("/")` on a `String`. -/
def rstripSlash (s : String) : String :=
  ⟨(s.data.reverse.dropWhile (· = '/')).reverse⟩

/-- Python `s.lower()` (ASCII case mapping). -/
def lowerStr (s : String) : String := ⟨s.data.map Char.toLower⟩

/-- Python `needle in hay` on strings: contiguous-substring test. -/
def hasSub (hay needle : List Char) : Bool :=
  needle.isPrefixOf hay ||
    match hay with
    | [] => false
    | _ :: t => hasSub t needle

/-- Python `s[:n]` on a `String`. -/
def strTake (n : Nat) (s : String) : String := ⟨s.data.take n⟩

-- ── `urllib.parse` model ─────────────────────────────────────────────────────

/-- Result of `urllib.parse.urlparse`: scheme, netloc, path, params, query,
fragment. -/
structure UrlParts where
  scheme : String
  netloc : String
  path : String
  params : String
  query : String
  fragment : String
deriving DecidableEq

/-- Characters allowed in a scheme after the first (CPython `scheme_chars`):
letters, digits, `+`, `-`, `.`. -/
def schemeChar (c : Char) : Bool :=
  c.isAlphanum || c = '+' || c = '-' || c = '.'

/-- Python `s.split(sep, 1)` when `sep` occurs: the part before the first
occurrence and the part after it; `none` when `sep` does not occur. -/
def breakAt (sep : Char) : List Char → Option (List Char × List Char)
  | [] => none
  | c :: cs =>
    if c = sep then some ([], cs)
    else
      match breakAt sep cs with
      | some (a, b) => some (c :: a, b)
      | none => none

/-- CPython `urlsplit` sanitization: strip leading C0 controls and space,
then remove every tab, carriage return and newline. -/
def sanitizeUrl (l : List Char) : List Char :=
  (l.dropWhile (fun c => c.val ≤ 32)).filter
    (fun c => !(c = '\t' || c = '\r' || c = '\n'))

/-- Scheme detection of CPython `urlsplit`: a leading `name:` whose name is
nonempty, starts with an ASCII letter and uses only `scheme_chars` is split
off and lower-cased; otherwise the URL is left whole. -/
def splitScheme (l : List Char) : String × List Char :=
  match breakAt ':' l with
  | none => ("", l)
  | some (before, after) =>
    if before ≠ [] ∧ (before.headI.isAlpha = true) ∧ (∀ c ∈ before, schemeChar c = true)
    then (⟨before.map Char.toLower⟩, after)
    else ("", l)

/-- CPython `_splitnetloc`: when the rest starts with `//`, the netloc runs
up to the first `/`, `?` or `#` (IPv6-bracket validation omitted — it only
raises in Python). -/
def splitNetloc (l : List Char) : List Char × List Char :=
  match l with
  | '/' :: '/' :: r =>
    (r.takeWhile (fun c => !(c = '/' || c = '?' || c = '#')),
     r.dropWhile (fun c => !(c = '/' || c = '?' || c = '#')))
  | _ => ([], l)

/-- Fragment split of `urlsplit`: `url.split('#', 1)` when `#` occurs. -/
def splitFrag (l : List Char) : List Char × List Char :=
  match breakAt '#' l with
  | some (a, b) => (a, b)
  | none => (l, [])

/-- Query split of `urlsplit`: `url.split('?', 1)` when `?` occurs. -/
def splitQuery (l : List Char) : List Char × List Char :=
  match breakAt '?' l with
  | some (a, b) => (a, b)
  | none => (l, [])

/-- CPython `uses_params`: the schemes for which `urlparse` splits `;params`
off the path. -/
def usesParams (scheme : String) : Bool :=
  scheme ∈ (["", "ftp", "hdl", "prospero", "http", "imap", "https", "shttp",
    "rtsp", "rtspu", "sip", "sips", "mms", "sftp", "tel"] : List String)

/-- CPython `_splitparams`: split `;params` off the last path segment (or off
the whole path when it has no `/`). -/
def splitParams (path : List Char) : List Char × List Char :=
  if path.contains '/' then
    let pre := (path.reverse.dropWhile (· ≠ '/')).reverse
    let lastSeg := (path.reverse.takeWhile (· ≠ '/')).reverse
    match breakAt ';' lastSeg with
    | some (a, b) => (pre ++ a, b)
    | none => (path, [])
  else
    match breakAt ';' path with
    | some (a, b) => (a, b)
    | none => (path, [])

/-- Model of `urllib.parse.urlparse` (default `scheme=''`,
`allow_fragments=True`; `_checknetloc`/IPv6 `ValueError` paths omitted). -/
def urlparse (s : String) : UrlParts :=
  let l := sanitizeUrl s.data
  let (scheme, r1) := splitScheme l
  let (netloc, r2) := splitNetloc r1
  let (r3, fragment) := splitFrag r2
  let (path0, query) := splitQuery r3
  let (path, params) :=
    if usesParams scheme && path0.contains ';' then splitParams path0
    else (path0, [])
  ⟨scheme, ⟨netloc⟩, ⟨path⟩, ⟨params⟩, ⟨query⟩, ⟨fragment⟩⟩

/-- Model of `urllib.parse.urlunparse` (via `urlunsplit`). -/
def urlunparse (p : UrlParts) : String :=
  let url := if p.params ≠ "" then p.path ++ ";" ++ p.params else p.path
  let url :=
    if p.netloc ≠ "" ∨ (url ≠ "" ∧ url.data.take 2 = ['/', '/']) then
      "//" ++ p.netloc ++
        (if url ≠ "" ∧ url.data.take 1 ≠ ['/'] then "/" ++ url else url)
    else url
  let url := if p.scheme ≠ "" then p.scheme ++ ":" ++ url else url
  let url := if p.query ≠ "" then url ++ "?" ++ p.query else url
  if p.fragment ≠ "" then url ++ "#" ++ p.fragment else url

-- ── URL utilities of crawler.py ──────────────────────────────────────────────

/-- `_normalize_url`: strip fragment and trailing slash for visited-set
deduplication (crawler.py lines 424-429). -/
def _normalize_url (url : String) : String :=
  let p := urlparse url
  let path := if rstripSlash p.path = "" then "/" else rstripSlash p.path
  lowerStr (urlunparse ⟨p.scheme, p.netloc, path, p.params, p.query, ""⟩)

/-- `_same_domain`: true if the URL shares the registered domain with the
base domain, allowing a `www.` prefix either way (crawler.py lines 432-436). -/
def _same_domain (url : String) (baseDomain : String) : Bool :=
  let host := lowerStr (urlparse url).netloc
  let bd := lowerStr baseDomain
  host == bd || host == "www." ++ bd || bd == "www." ++ host

-- ── Data classes ─────────────────────────────────────────────────────────────

/-- Constant `_MAX_CONTENT_CHARS` of crawler.py. -/
def _MAX_CONTENT_CHARS : Nat := 100000

/-- Constant `_EXCERPT_CHARS` of crawler.py. -/
def _EXCERPT_CHARS : Nat := 300

/-- Dataclass `PageData` (all-`None` defaults as in the source). -/
structure PageData where
  url : String
  title : Option String := none
  description : Option String := none
  raw_content : Option String := none
  word_count : Option Nat := none
  excerpt : Option String := none
  published_at : Option String := none
deriving DecidableEq

/-- One entry of `CrawlResult.errors`: the dict `{"url": ..., "error": ...}`. -/
structure ErrEntry where
  url : String
  error : String
deriving DecidableEq

/-- Dataclass `ExtractResult` of the bulk path. -/
structure ExtractResult where
  url : String
  title : Option String := none
  raw_content : Option String := none
  word_count : Option Nat := none
  excerpt : Option String := none
  published_at : Option String := none
  error : Option String := none
deriving DecidableEq

/-- Return value of `_fetch_page` / `_fetch_page_with_retry`:
`(page_data, links, error)`. -/
abbrev FetchOutcome : Type := Option PageData × List String × Option String

/-- Python truthiness of the `error` value (`if error:`): a string that is
neither `None` nor empty. -/
def truthy : Option String → Bool
  | none => false
  | some s => s ≠ ""

-- ── Retry policy (`_fetch_page_with_retry`, lines 165-185) ───────────────────

/-- The retryable-error test of `_fetch_page_with_retry` (lines 177-181):
`"connection" in error.lower() or "timed out" in error.lower() or
error.startswith("HTTP 5")`. -/
def is_retryable (error : String) : Bool :=
  hasSub (lowerStr error).data ("connection".data) ||
    hasSub (lowerStr error).data ("timed out".data) ||
    ("HTTP 5".data).isPrefixOf error.data

/-- The `for attempt in range(max_retries + 1)` loop of
`_fetch_page_with_retry`; the fetch oracle gives `_fetch_page`'s outcome at
each attempt number (the `asyncio.sleep` backoff has no modelled effect). -/
def retryLoop (fetch : Nat → FetchOutcome) (maxRetries : Nat) (attempt : Nat) :
    FetchOutcome :=
  let r := fetch attempt
  if r.2.2 = none ∨ maxRetries ≤ attempt then r
  else if ¬ is_retryable ((r.2.2).getD "") = true then r
  else retryLoop fetch maxRetries (attempt + 1)
termination_by maxRetries + 1 - attempt
decreasing_by omega

/-- `_fetch_page_with_retry` (default `max_retries=2`): run the attempt loop
from attempt 0. -/
def fetch_page_with_retry (fetch : Nat → FetchOutcome) (maxRetries : Nat := 2) :
    FetchOutcome :=
  retryLoop fetch maxRetries 0

-- ── Fetch classification (`_fetch_page` lines 204-218, `extract_urls` 379-409) ─

/-- An HTTP response that completed transport (no exception raised): status
code, `content-type` header value, final post-redirect URL and body text. -/
structure Response where
  status : Nat
  contentType : String
  finalUrl : String
  body : String
deriving DecidableEq

/-- The response-classification part of `_fetch_page` (lines 204-218), with
BeautifulSoup extraction abstracted by the two oracles: non-HTML
content-type → silent skip `(None, [], None)`; status ≥ 400 → error
`"HTTP <status>"`; otherwise extract page data and links. -/
def _fetch_page_response (extractP : Response → PageData)
    (extractL : Response → List String) (r : Response) : FetchOutcome :=
  if ¬ hasSub r.contentType.data ("text/html".data) = true then (none, [], none)
  else if 400 ≤ r.status then (none, [], some ("HTTP " ++ toString r.status))
  else (some (extractP r), extractL r, none)

/-- The response-classification part of the bulk path's `_fetch_one`
(`extract_urls`, lines 390-409): status ≥ 400 → error `"HTTP <status>"`;
then non-HTML content-type → error `"non-HTML content-type: <ct[:60]>"`;
otherwise an `ExtractResult` copied from the extracted page. -/
def _fetch_one_response (extractP : Response → PageData) (url : String)
    (r : Response) : ExtractResult :=
  if 400 ≤ r.status then { url := url, error := some ("HTTP " ++ toString r.status) }
  else if ¬ hasSub r.contentType.data ("text/html".data) = true then
    { url := url, error := some ("non-HTML content-type: " ++ strTake 60 r.contentType) }
  else
    let page := extractP r
    { url := url, title := page.title, raw_content := page.raw_content,
      word_count := page.word_count, excerpt := page.excerpt,
      published_at := page.published_at }

-- ── Crawl orchestrator (`crawl`, lines 108-163) ──────────────────────────────

/-- The crawl's mutable state.  `queue`, `visited`, `pages`, `crawledCount`,
`errorCount` and `errors` are the variables of `crawl`; `fetched` is a ghost
trace recording every `(url, depth)` entry that passed the visited check and
was fetched (used only to state invariants, never read by the loop). -/
structure CrawlSt where
  queue : List (String × Nat)
  visited : List String
  pages : List PageData
  crawledCount : Nat
  errorCount : Nat
  errors : List ErrEntry
  fetched : List (String × Nat)
deriving DecidableEq

/-- The inner `for link in links` loop (lines 157-161): keep the links in the
crawl's domain whose normalized key is not yet visited, enqueued at
`depth + 1`. -/
def enqueue_links (links : List String) (baseDomain : String)
    (visited : List String) (depth : Nat) : List (String × Nat) :=
  (links.filter (fun link =>
      _same_domain link baseDomain && !visited.contains (_normalize_url link))).map
    (fun link => (link, depth + 1))

/-- One iteration's handling of a fetched URL (lines 144-161), after the
entry was popped and marked visited: on a truthy error record an error entry;
on page data record the page and, when still below `max_depth` and links were
found, enqueue the in-scope unvisited links; otherwise (silent skip) change
nothing. -/
def crawl_step (fetch : String → FetchOutcome) (baseDomain : String)
    (maxDepth : Nat) (url : String) (depth : Nat) (st : CrawlSt) : CrawlSt :=
  let st0 := { st with fetched := st.fetched ++ [(url, depth)] }
  let pd := (fetch url).1
  let links := (fetch url).2.1
  let err := (fetch url).2.2
  if truthy err then
    { st0 with errors := st0.errors ++ [⟨url, err.getD ""⟩],
               errorCount := st0.errorCount + 1 }
  else
    match pd with
    | some page =>
      let st1 := { st0 with pages := st0.pages ++ [page],
                            crawledCount := st0.crawledCount + 1 }
      if depth < maxDepth ∧ links ≠ [] then
        { st1 with queue := st1.queue ++ enqueue_links links baseDomain st1.visited depth }
      else st1
    | none => st0

/-- The `while queue and result.crawled_count < max_pages` loop (lines
134-162), with a fuel argument for termination: `none` means the fuel ran out
before the loop's own exit condition held; `some` is a terminating run's
final state. -/
def crawl_loop (fetch : String → FetchOutcome) (baseDomain : String)
    (maxDepth maxPages : Nat) : Nat → CrawlSt → Option CrawlSt
  | 0, st =>
    if st.queue = [] ∨ maxPages ≤ st.crawledCount then some st else none
  | fuel + 1, st =>
    match st.queue with
    | [] => some st
    | (url, depth) :: rest =>
      if maxPages ≤ st.crawledCount then some st
      else
        let norm := _normalize_url url
        if st.visited.contains norm then
          crawl_loop fetch baseDomain maxDepth maxPages fuel { st with queue := rest }
        else
          crawl_loop fetch baseDomain maxDepth maxPages fuel
            (crawl_step fetch baseDomain maxDepth url depth
              { st with queue := rest, visited := norm :: st.visited })

/-- `CrawlerAgent.crawl` (lines 108-163): BFS from `(start_url, 0)` with the
seed's netloc as base domain.  The fetch oracle stands for
`_fetch_page_with_retry` on each URL. -/
def crawl (fetch : String → FetchOutcome) (startUrl : String)
    (maxDepth maxPages fuel : Nat) : Option CrawlSt :=
  crawl_loop fetch (urlparse startUrl).netloc maxDepth maxPages fuel
    { queue := [(startUrl, 0)], visited := [], pages := [], crawledCount := 0,
      errorCount := 0, errors := [], fetched := [] }

-- ── Content extraction text stage (`_get_main_content` lines 338-340) ────────

/-- The text stage of `_get_main_content` (lines 338-340), applied to the
text of the selected main-content region (`main.get_text(separator=" ")`):
`text = " ".join(raw.split()); word_count = len(text.split());
return text[:_MAX_CONTENT_CHARS], word_count`. -/
def _get_main_content_text (regionText : List Char) : List Char × Nat :=
  let text := collapse regionText
  (text.take _MAX_CONTENT_CHARS, (splitWs text).length)

/-- The excerpt computed by `_extract_page_data` (line 236):
`raw_content[:_EXCERPT_CHARS].strip() if raw_content else None`. -/
def excerpt_of (rawContent : List Char) : Option (List Char) :=
  if rawContent = [] then none
  else some (pyStrip (rawContent.take _EXCERPT_CHARS))

-- ── Concrete inputs used by witnesses and counterexamples ────────────────────

/-- The character list of `"a " * n`: `n` copies of `'a'` each followed by a
space (a page text whose collapse has a space at any odd index). -/
def patAS : Nat → List Char
  | 0 => []
  | n + 1 => 'a' :: ' ' :: patAS n

/-- Fetch oracle whose every response is a silent non-HTML skip. -/
def skipFetch : String → FetchOutcome := fun _ => (none, [], none)

/-- Fetch oracle that redirects the seed `http://a/` to the final URL
`http://a/b` (the returned page record carries the post-redirect URL) and
links to `http://a/b`, which then resolves to itself. -/
def c3fetch : String → FetchOutcome := fun u =>
  if u = "http://a/" then (some { url := "http://a/b" }, ["http://a/b"], none)
  else if u = "http://a/b" then (some { url := "http://a/b" }, [], none)
  else (none, [], none)

/-- The final state of `crawl c3fetch "http://a/" 2 10 5`. -/
def c3st : CrawlSt :=
  { queue := [], visited := ["http://a/b", "http://a/"],
    pages := [{ url := "http://a/b" }, { url := "http://a/b" }],
    crawledCount := 2, errorCount := 0, errors := [],
    fetched := [("http://a/", 0), ("http://a/b", 1)] }

/-- The final state of `crawl skipFetch "http://a/" 1 2 3`. -/
def skipSt : CrawlSt :=
  { queue := [], visited := ["http://a/"], pages := [], crawledCount := 0,
    errorCount := 0, errors := [], fetched := [("http://a/", 0)] }

/-- Attempt-indexed oracle for the retry wrapper: the first attempt raises
`httpx.TimeoutException` (so `_fetch_page` returns `(None, [], "timeout")`),
and every later attempt would succeed. -/
def c1fetch : Nat → FetchOutcome := fun attempt =>
  if attempt = 0 then (none, [], some "timeout")
  else (some { url := "https://x.test/" }, [], none)

/-- Extraction oracle standing for `_extract_page_data` where its output is
irrelevant. -/
def dummyExtract : Response → PageData := fun r => { url := r.finalUrl }

/-- Link-extraction oracle standing for `_extract_links` where its output is
irrelevant. -/
def dummyLinks : Response → List String := fun _ => []

/-- A completed response carrying a PDF: status 200,
`content-type: application/pdf`. -/
def pdfResponse : Response :=
  { status := 200, contentType := "application/pdf",
    finalUrl := "https://x.test/doc", body := "" }

/-- Invariant of the crawl loop: the result counters match the list lengths
and respect the page cap, every queued or fetched entry respects the depth
ceiling, every error entry records a fetch failure for its URL, no
normalized URL is fetched twice, fetched keys are all marked visited, and
the error URLs are a subsequence of the fetched URLs. -/
abbrev CrawlInv (fetch : String → FetchOutcome) (maxDepth maxPages : Nat)
    (st : CrawlSt) : Prop :=
  st.pages.length = st.crawledCount ∧
  st.errors.length = st.errorCount ∧
  st.crawledCount ≤ maxPages ∧
  (∀ e ∈ st.queue, e.2 ≤ maxDepth) ∧
  (∀ e ∈ st.fetched, e.2 ≤ maxDepth) ∧
  (∀ e ∈ st.errors, (fetch e.url).2.2 = some e.error) ∧
  (st.fetched.map (fun e => _normalize_url e.1)).Nodup ∧
  (∀ e ∈ st.fetched, _normalize_url e.1 ∈ st.visited) ∧
  (st.errors.map ErrEntry.url).Sublist (st.fetched.map Prod.fst)

-- ── Lemmas: whitespace splitting and joining ─────────────────────────────────

theorem splitWs_nil : splitWs [] = [] := by
  rw [splitWs]

theorem splitWs_cons_space {c : Char} (cs : List Char) (h : isPySpace c = true) :
    splitWs (c :: cs) = splitWs cs := by
  rw [splitWs]
  simp [h]

theorem splitWs_cons_word {c : Char} (cs : List Char) (h : isPySpace c = false) :
    splitWs (c :: cs)
      = (c :: cs.takeWhile nonspace) :: splitWs (cs.dropWhile nonspace) := by
  rw [splitWs]
  simp [h]

theorem takeWhile_of_all {α : Type} {p : α → Bool} :
    ∀ {l : List α}, (∀ c ∈ l, p c = true) → l.takeWhile p = l
  | [], _ => rfl
  | a :: l, h => by
    rw [List.takeWhile_cons_of_pos (h a (List.mem_cons_self a l))]
    rw [takeWhile_of_all (fun c hc => h c (List.mem_cons_of_mem a hc))]

theorem dropWhile_of_all {α : Type} {p : α → Bool} :
    ∀ {l : List α}, (∀ c ∈ l, p c = true) → l.dropWhile p = []
  | [], _ => rfl
  | a :: l, h => by
    rw [List.dropWhile_cons_of_pos (h a (List.mem_cons_self a l))]
    exact dropWhile_of_all (fun c hc => h c (List.mem_cons_of_mem a hc))

theorem takeWhile_append_break {α : Type} {p : α → Bool} {b : α} (hb : p b = false) :
    ∀ {l : List α} (r : List α), (∀ c ∈ l, p c = true) →
      (l ++ b :: r).takeWhile p = l
  | [], r, _ => by simp [List.takeWhile_cons_of_neg, hb]
  | a :: l, r, h => by
    rw [List.cons_append,
      List.takeWhile_cons_of_pos (h a (List.mem_cons_self a l)),
      takeWhile_append_break hb r (fun c hc => h c (List.mem_cons_of_mem a hc))]

theorem dropWhile_append_break {α : Type} {p : α → Bool} {b : α} (hb : p b = false) :
    ∀ {l : List α} (r : List α), (∀ c ∈ l, p c = true) →
      (l ++ b :: r).dropWhile p = b :: r
  | [], r, _ => by simp [List.dropWhile_cons_of_neg, hb]
  | a :: l, r, h => by
    rw [List.cons_append,
      List.dropWhile_cons_of_pos (h a (List.mem_cons_self a l)),
      dropWhile_append_break hb r (fun c hc => h c (List.mem_cons_of_mem a hc))]

/-- Every word produced by `splitWs` is nonempty and free of whitespace. -/
theorem splitWs_words_good (l : List Char) :
    ∀ w ∈ splitWs l, w ≠ [] ∧ ∀ c ∈ w, isPySpace c = false := by
  induction l using splitWs.induct with
  | case1 => simp [splitWs_nil]
  | case2 c cs h ih =>
    rw [splitWs_cons_space cs h]
    exact ih
  | case3 c cs h ih =>
    rw [splitWs_cons_word cs (by simpa using h)]
    intro w hw
    rcases List.mem_cons.mp hw with hw | hw
    · subst hw
      refine ⟨by simp, ?_⟩
      intro x hx
      rcases List.mem_cons.mp hx with hx | hx
      · subst hx
        simpa using h
      · have := List.mem_takeWhile_imp hx
        simpa [nonspace] using this
    · exact ih w hw

/-- Splitting the space-joined image of good words recovers the words. -/
theorem splitWs_joinWords :
    ∀ ws : List (List Char),
      (∀ w ∈ ws, w ≠ [] ∧ ∀ c ∈ w, isPySpace c = false) →
      splitWs (joinWords ws) = ws
  | [], _ => by simp [joinWords, splitWs_nil]
  | [w], h => by
    obtain ⟨hne, hw⟩ := h w (by simp)
    obtain ⟨c, w', rfl⟩ := List.exists_cons_of_ne_nil hne
    show splitWs (c :: w') = [c :: w']
    rw [splitWs_cons_word w' (hw c (by simp)),
      takeWhile_of_all (fun x hx => by simp [nonspace, hw x (List.mem_cons_of_mem c hx)]),
      dropWhile_of_all (fun x hx => by simp [nonspace, hw x (List.mem_cons_of_mem c hx)]),
      splitWs_nil]
  | w :: v :: ws, h => by
    obtain ⟨hne, hw⟩ := h w (by simp)
    obtain ⟨c, w', rfl⟩ := List.exists_cons_of_ne_nil hne
    show splitWs ((c :: w') ++ ' ' :: joinWords (v :: ws)) = (c :: w') :: v :: ws
    rw [List.cons_append,
      splitWs_cons_word _ (hw c (by simp)),
      takeWhile_append_break (by simp [nonspace, isPySpace]) _
        (fun x hx => by simp [nonspace, hw x (List.mem_cons_of_mem c hx)]),
      dropWhile_append_break (by simp [nonspace, isPySpace]) _
        (fun x hx => by simp [nonspace, hw x (List.mem_cons_of_mem c hx)]),
      splitWs_cons_space _ (by simp [isPySpace]),
      splitWs_joinWords (v :: ws) (fun u hu => h u (List.mem_cons_of_mem (c :: w') hu))]

/-- Collapsing whitespace is idempotent. -/
theorem collapse_collapse (l : List Char) : collapse (collapse l) = collapse l := by
  unfold collapse
  rw [splitWs_joinWords (splitWs l) (splitWs_words_good l)]

theorem dropWhile_append_of_ne {α : Type} {p : α → Bool} :
    ∀ {l : List α} (r : List α), l.dropWhile p ≠ [] →
      (l ++ r).dropWhile p = l.dropWhile p ++ r
  | [], r, h => absurd rfl h
  | a :: l, r, h => by
    by_cases ha : p a
    · rw [List.cons_append, List.dropWhile_cons_of_pos ha,
        List.dropWhile_cons_of_pos ha]
      rw [List.dropWhile_cons_of_pos ha] at h
      exact dropWhile_append_of_ne r h
    · rw [List.cons_append, List.dropWhile_cons_of_neg ha,
        List.dropWhile_cons_of_neg ha, List.cons_append]

theorem dropWhile_append_of_nil {α : Type} {p : α → Bool} :
    ∀ {l : List α} (r : List α), l.dropWhile p = [] →
      (l ++ r).dropWhile p = r.dropWhile p
  | [], r, _ => rfl
  | a :: l, r, h => by
    by_cases ha : p a
    · rw [List.cons_append, List.dropWhile_cons_of_pos ha]
      rw [List.dropWhile_cons_of_pos ha] at h
      exact dropWhile_append_of_nil r h
    · rw [List.dropWhile_cons_of_neg ha] at h
      exact absurd h (by simp)

/-- Appending text never loses tokens: the token count of `l` is at most
that of `l ++ r`. -/
theorem splitWs_length_append_le (l : List Char) :
    ∀ r : List Char, (splitWs l).length ≤ (splitWs (l ++ r)).length := by
  induction l using splitWs.induct with
  | case1 =>
    intro r
    simp [splitWs_nil]
  | case2 c cs h ih =>
    intro r
    rw [splitWs_cons_space cs h, List.cons_append, splitWs_cons_space (cs ++ r) h]
    exact ih r
  | case3 c cs h ih =>
    intro r
    have h' : isPySpace c = false := by simpa using h
    rw [splitWs_cons_word cs h', List.cons_append, splitWs_cons_word (cs ++ r) h']
    simp only [List.length_cons, Nat.succ_le_succ_iff]
    by_cases hd : cs.dropWhile nonspace = []
    · rw [hd, splitWs_nil]
      exact Nat.zero_le _
    · rw [dropWhile_append_of_ne r hd]
      exact ih r

/-- Truncation never adds tokens: the token count of a `take` is at most
that of the whole list. -/
theorem splitWs_length_take_le (l : List Char) (n : Nat) :
    (splitWs (l.take n)).length ≤ (splitWs l).length := by
  have := splitWs_length_append_le (l.take n) (l.drop n)
  rwa [List.take_append_drop n l] at this

-- ── Lemmas: the alternating pattern `"a a ... a "` used as counterexample ────

theorem patAS_length : ∀ n, (patAS n).length = 2 * n
  | 0 => rfl
  | n + 1 => by
    show (patAS n).length + 1 + 1 = 2 * (n + 1)
    rw [patAS_length n]
    omega

theorem splitWs_patAS : ∀ n, splitWs (patAS n) = List.replicate n ['a']
  | 0 => splitWs_nil
  | n + 1 => by
    show splitWs ('a' :: ' ' :: patAS n) = List.replicate (n + 1) ['a']
    rw [splitWs_cons_word _ (by simp [isPySpace]),
      List.takeWhile_cons_of_neg (by simp [nonspace, isPySpace]),
      List.dropWhile_cons_of_neg (by simp [nonspace, isPySpace]),
      splitWs_cons_space _ (by simp [isPySpace]),
      splitWs_patAS n, List.replicate_succ]

theorem joinWords_replicate_a :
    ∀ n, joinWords (List.replicate (n + 1) ['a']) = patAS n ++ ['a']
  | 0 => rfl
  | n + 1 => by
    rw [List.replicate_succ]
    show ['a'] ++ ' ' :: joinWords (List.replicate (n + 1) ['a']) = _
    rw [joinWords_replicate_a n]
    rfl

theorem collapse_patAS (n : Nat) :
    collapse (patAS (n + 1)) = patAS n ++ ['a'] := by
  unfold collapse
  rw [splitWs_patAS (n + 1), joinWords_replicate_a n]

theorem takeWhile_replicate_a (n : Nat) :
    (List.replicate n 'a').takeWhile nonspace = List.replicate n 'a' :=
  takeWhile_of_all (fun c hc => by
    have := List.eq_of_mem_replicate hc
    simp [this, nonspace, isPySpace])

theorem dropWhile_replicate_a (n : Nat) :
    (List.replicate n 'a').dropWhile nonspace = [] :=
  dropWhile_of_all (fun c hc => by
    have := List.eq_of_mem_replicate hc
    simp [this, nonspace, isPySpace])

theorem splitWs_replicate_a (n : Nat) :
    splitWs (List.replicate (n + 1) 'a') = [List.replicate (n + 1) 'a'] := by
  rw [List.replicate_succ,
    splitWs_cons_word _ (by simp [isPySpace]),
    takeWhile_replicate_a n, dropWhile_replicate_a n, splitWs_nil,
    ← List.replicate_succ]

theorem collapse_replicate_a (n : Nat) :
    collapse (List.replicate (n + 1) 'a') = List.replicate (n + 1) 'a' := by
  unfold collapse
  rw [splitWs_replicate_a n]
  rfl

-- ── Lemmas: prefixes, stripping and the head of collapsed text ───────────────

theorem take_isPre {α : Type} (n : Nat) (l : List α) : l.take n <+: l :=
  ⟨l.drop n, List.take_append_drop n l⟩

theorem rstrip_isPre (p : Char → Bool) (l : List Char) :
    ((l.reverse.dropWhile p).reverse) <+: l := by
  refine ⟨(l.reverse.takeWhile p).reverse, ?_⟩
  rw [← List.reverse_append, List.takeWhile_append_dropWhile, List.reverse_reverse]

theorem pyStrip_isPre_of_head {c : Char} (cs : List Char)
    (h : isPySpace c = false) : pyStrip (c :: cs) <+: c :: cs := by
  unfold pyStrip
  rw [List.dropWhile_cons_of_neg (by simp [h])]
  exact rstrip_isPre _ _

theorem joinWords_head_ex (w : List Char) (ws : List (List Char)) :
    ∃ t, joinWords (w :: ws) = w ++ t := by
  cases ws with
  | nil => exact ⟨[], by simp [joinWords]⟩
  | cons v ws => exact ⟨' ' :: joinWords (v :: ws), rfl⟩

/-- Collapsed text never starts with whitespace. -/
theorem collapse_head_nonspace (s : List Char) {c : Char} {r : List Char}
    (h : collapse s = c :: r) : isPySpace c = false := by
  unfold collapse at h
  cases hws : splitWs s with
  | nil =>
    rw [hws] at h
    simp [joinWords] at h
  | cons w ws =>
    rw [hws] at h
    obtain ⟨hne, hgood⟩ := splitWs_words_good s w (by rw [hws]; exact List.mem_cons_self w ws)
    obtain ⟨a, w', rfl⟩ := List.exists_cons_of_ne_nil hne
    obtain ⟨t, ht⟩ := joinWords_head_ex (a :: w') ws
    rw [ht, List.cons_append] at h
    injection h with h1 _
    rw [← h1]
    exact hgood a (List.mem_cons_self a w')

-- ── C4: idempotence of whitespace collapse on the truncated content ──────────

/-- C4 (counterexample): for the page text `"a " * 50001` the collapsed text
has 100,001 characters and the 100,000-character cut falls right after an
inter-word space, so the stored `raw_content` ends in `' '` and is not a
fixed point of whitespace collapse. -/
theorem c4_counterexample :
    collapse ((_get_main_content_text (patAS 50001)).1)
      ≠ (_get_main_content_text (patAS 50001)).1 := by
  have hraw : (_get_main_content_text (patAS 50001)).1 = patAS 50000 := by
    show (collapse (patAS 50001)).take _MAX_CONTENT_CHARS = patAS 50000
    rw [collapse_patAS 50000]
    have hl : (patAS 50000).length = _MAX_CONTENT_CHARS := by
      rw [patAS_length]
      norm_num [_MAX_CONTENT_CHARS]
    rw [← hl, List.take_left]
  rw [hraw, collapse_patAS 49999]
  intro h
  have hlen := congrArg List.length h
  rw [List.length_append, patAS_length, patAS_length] at hlen
  norm_num at hlen

/-- C4 (amended): whitespace collapse is idempotent, and the truncated
`raw_content` is a fixed point of it whenever the collapsed text fits within
the 100,000-character budget (the counterexample shows the fixed point can
fail only through the truncation cut). -/
theorem c4_amended :
    (∀ s : List Char, collapse (collapse s) = collapse s) ∧
    (∀ s : List Char, (collapse s).length ≤ _MAX_CONTENT_CHARS →
      collapse ((_get_main_content_text s).1) = (_get_main_content_text s).1) := by
  refine ⟨collapse_collapse, ?_⟩
  intro s hs
  show collapse ((collapse s).take _MAX_CONTENT_CHARS)
    = (collapse s).take _MAX_CONTENT_CHARS
  rw [List.take_of_length_le hs]
  exact collapse_collapse s

/-- C4 (witness): for the two-character page text `"a "` the collapsed text
is `"a"`, within budget, and is indeed a fixed point. -/
theorem c4_amended_witness :
    (collapse (patAS 1)).length ≤ _MAX_CONTENT_CHARS ∧
    collapse ((_get_main_content_text (patAS 1)).1)
      = (_get_main_content_text (patAS 1)).1 := by
  have hle : (collapse (patAS 1)).length ≤ _MAX_CONTENT_CHARS := by
    rw [collapse_patAS 0]
    norm_num [_MAX_CONTENT_CHARS, patAS]
  exact ⟨hle, c4_amended.2 (patAS 1) hle⟩

-- ── C7: raw-content budget and the excerpt as a bounded prefix ───────────────

/-- C7: the stored `raw_content` never exceeds 100,000 characters, and the
excerpt, when present, is a prefix of `raw_content` of at most 300
characters. -/
theorem c7_content_bounds (s : List Char) :
    (_get_main_content_text s).1.length ≤ _MAX_CONTENT_CHARS ∧
    ∀ e, excerpt_of ((_get_main_content_text s).1) = some e →
      e <+: (_get_main_content_text s).1 ∧ e.length ≤ _EXCERPT_CHARS := by
  constructor
  · show ((collapse s).take _MAX_CONTENT_CHARS).length ≤ _MAX_CONTENT_CHARS
    rw [List.length_take]
    exact min_le_left _ _
  · intro e he
    unfold excerpt_of at he
    split at he
    · exact absurd he (by simp)
    · rename_i hne
      injection he with he
      subst he
      set raw := (_get_main_content_text s).1 with hraw
      obtain ⟨c, r, hcr⟩ : ∃ c r, collapse s = c :: r := by
        rcases hcs : collapse s with _ | ⟨c, r⟩
        · exact absurd (by show (collapse s).take _MAX_CONTENT_CHARS = []; rw [hcs]; rfl) hne
        · exact ⟨c, r, rfl⟩
      have hc : isPySpace c = false := collapse_head_nonspace s hcr
      have hrawc : raw = c :: (r.take 99999) := by
        rw [hraw]
        show (collapse s).take _MAX_CONTENT_CHARS = _
        rw [hcr]
        rfl
      have htk : raw.take _EXCERPT_CHARS = c :: ((r.take 99999).take 299) := by
        rw [hrawc]
        rfl
      constructor
      · rw [htk]
        exact (pyStrip_isPre_of_head _ hc).trans (htk ▸ take_isPre _EXCERPT_CHARS raw)
      · have h1 : pyStrip (raw.take _EXCERPT_CHARS) <+: raw.take _EXCERPT_CHARS := by
          rw [htk]
          exact pyStrip_isPre_of_head _ hc
        have h2 := h1.length_le
        rw [List.length_take] at h2
        exact h2.trans (min_le_left _ _)

/-- C7 (witness): for the page text `"a "` the excerpt is `"a"`, a prefix of
the raw content within the 300-character budget. -/
theorem c7_content_bounds_witness :
    excerpt_of ((_get_main_content_text (patAS 1)).1) = some ['a'] ∧
    (['a'] <+: (_get_main_content_text (patAS 1)).1 ∧
      (['a'] : List Char).length ≤ _EXCERPT_CHARS) := by
  have hraw : (_get_main_content_text (patAS 1)).1 = ['a'] := by
    show (collapse (patAS 1)).take _MAX_CONTENT_CHARS = ['a']
    rw [collapse_patAS 0]
    rfl
  have he : excerpt_of ((_get_main_content_text (patAS 1)).1) = some ['a'] := by
    rw [hraw]
    rfl
  exact ⟨he, (c7_content_bounds (patAS 1)).2 ['a'] he⟩

-- ── C10: word count is taken before truncation ───────────────────────────────

/-- C10 (amended): `word_count` is the token count of the full collapsed text
(equally, of the page text) computed before the 100,000-character truncation,
and it is always at least — but not necessarily strictly greater than — the
token count of the returned `raw_content`. -/
theorem c10_amended (s : List Char) :
    (_get_main_content_text s).2 = (splitWs (collapse s)).length ∧
    (_get_main_content_text s).2 = (splitWs s).length ∧
    (splitWs ((_get_main_content_text s).1)).length ≤ (_get_main_content_text s).2 := by
  refine ⟨?_, ?_, ?_⟩
  · show (splitWs (collapse s)).length = (splitWs (collapse s)).length
    rfl
  · show (splitWs (collapse s)).length = (splitWs s).length
    unfold collapse
    rw [splitWs_joinWords (splitWs s) (splitWs_words_good s)]
  · show (splitWs ((collapse s).take _MAX_CONTENT_CHARS)).length
      ≤ (splitWs (collapse s)).length
    exact splitWs_length_take_le (collapse s) _MAX_CONTENT_CHARS

/-- C10 (counterexample): for a single 100,001-character token the collapsed
text exceeds the budget, yet `word_count` (= 1) does not exceed the token
count of the returned `raw_content` (also 1): truncation cut the token
instead of dropping one. -/
theorem c10_counterexample :
    _MAX_CONTENT_CHARS < (collapse (List.replicate 100001 'a')).length ∧
    ¬ ((splitWs ((_get_main_content_text (List.replicate 100001 'a')).1)).length
        < (_get_main_content_text (List.replicate 100001 'a')).2) := by
  have hcol : collapse (List.replicate 100001 'a') = List.replicate 100001 'a' :=
    collapse_replicate_a 100000
  constructor
  · rw [hcol, List.length_replicate]
    norm_num [_MAX_CONTENT_CHARS]
  · have hraw : (_get_main_content_text (List.replicate 100001 'a')).1
        = List.replicate 100000 'a' := by
      show (collapse (List.replicate 100001 'a')).take _MAX_CONTENT_CHARS = _
      rw [hcol, List.take_replicate]
      norm_num [_MAX_CONTENT_CHARS]
    have hwc : (_get_main_content_text (List.replicate 100001 'a')).2 = 1 := by
      show (splitWs (collapse (List.replicate 100001 'a'))).length = 1
      rw [hcol, splitWs_replicate_a 100000]
      rfl
    rw [hraw, hwc, splitWs_replicate_a 99999]
    rw [List.length_singleton]
    exact lt_irrefl 1

-- ── Lemmas: the crawl loop invariant ─────────────────────────────────────────

theorem truthy_eq_some {o : Option String} (h : truthy o = true) :
    o = some (o.getD "") := by
  cases o with
  | none => simp [truthy] at h
  | some s => rfl

theorem nodup_append_singleton {α : Type} {l : List α} {a : α}
    (h : l.Nodup) (ha : a ∉ l) : (l ++ [a]).Nodup := by
  rw [List.nodup_append]
  refine ⟨h, List.nodup_singleton a, ?_⟩
  intro x hx hxa
  rw [List.mem_singleton] at hxa
  subst hxa
  exact ha hx

theorem enqueue_links_depth (links : List String) (b : String)
    (v : List String) (d : Nat) : ∀ e ∈ enqueue_links links b v d, e.2 = d + 1 := by
  intro e he
  unfold enqueue_links at he
  obtain ⟨link, _, rfl⟩ := List.mem_map.mp he
  rfl

/-- One fetched URL preserves the crawl invariant, provided the cap still had
room, the entry's depth respects the ceiling, its normalized key is marked
visited and was never fetched before. -/
theorem crawl_step_inv (fetch : String → FetchOutcome) (baseDomain : String)
    (maxDepth maxPages : Nat) (url : String) (depth : Nat) (st : CrawlSt)
    (hInv : CrawlInv fetch maxDepth maxPages st)
    (hcap : st.crawledCount < maxPages)
    (hdep : depth ≤ maxDepth)
    (hmem : _normalize_url url ∈ st.visited)
    (hnotin : _normalize_url url ∉ st.fetched.map (fun e => _normalize_url e.1)) :
    CrawlInv fetch maxDepth maxPages
      (crawl_step fetch baseDomain maxDepth url depth st) := by
  obtain ⟨h1, h2, h3, h4, h5, h6, h7, h8, h9⟩ := hInv
  have hf' : ∀ e ∈ st.fetched ++ [(url, depth)], e.2 ≤ maxDepth := by
    intro e he
    rcases List.mem_append.mp he with he | he
    · exact h5 e he
    · rw [List.mem_singleton] at he
      subst he
      exact hdep
  have hnd' : ((st.fetched ++ [(url, depth)]).map
      (fun e => _normalize_url e.1)).Nodup := by
    rw [List.map_append]
    exact nodup_append_singleton h7 (by simpa using hnotin)
  have hv' : ∀ e ∈ st.fetched ++ [(url, depth)],
      _normalize_url e.1 ∈ st.visited := by
    intro e he
    rcases List.mem_append.mp he with he | he
    · exact h8 e he
    · rw [List.mem_singleton] at he
      subst he
      exact hmem
  have hsub' : (st.errors.map ErrEntry.url).Sublist
      ((st.fetched ++ [(url, depth)]).map Prod.fst) := by
    rw [List.map_append]
    exact h9.trans (List.sublist_append_left _ _)
  simp only [crawl_step]
  by_cases he : truthy (fetch url).2.2 = true
  · rw [if_pos he]
    refine ⟨h1, ?_, h3, h4, hf', ?_, hnd', hv', ?_⟩
    · show (st.errors ++ [ErrEntry.mk url ((fetch url).2.2.getD "")]).length = st.errorCount + 1
      rw [List.length_append, h2]
      rfl
    · intro e hme
      have hme' : e ∈ st.errors ++ [ErrEntry.mk url ((fetch url).2.2.getD "")] := hme
      rcases List.mem_append.mp hme' with hme'' | hme''
      · exact h6 e hme''
      · rw [List.mem_singleton] at hme''
        subst hme''
        exact truthy_eq_some he
    · show ((st.errors ++ [ErrEntry.mk url ((fetch url).2.2.getD "")]).map ErrEntry.url).Sublist
        ((st.fetched ++ [(url, depth)]).map Prod.fst)
      rw [List.map_append, List.map_append]
      exact List.Sublist.append h9 (List.Sublist.refl _)
  · rw [if_neg he]
    cases hpd : (fetch url).1 with
    | none =>
      exact ⟨h1, h2, h3, h4, hf', h6, hnd', hv', hsub'⟩
    | some page =>
      dsimp only
      by_cases hdl : depth < maxDepth ∧ (fetch url).2.1 ≠ []
      · rw [if_pos hdl]
        refine ⟨?_, h2, hcap, ?_, hf', h6, hnd', hv', hsub'⟩
        · show (st.pages ++ [page]).length = st.crawledCount + 1
          rw [List.length_append, h1]
          rfl
        · intro e hq
          have hq' : e ∈ st.queue ++ enqueue_links (fetch url).2.1 baseDomain st.visited depth := hq
          rcases List.mem_append.mp hq' with hq'' | hq''
          · exact h4 e hq''
          · rw [enqueue_links_depth _ _ _ _ e hq'']
            exact hdl.1
      · rw [if_neg hdl]
        refine ⟨?_, h2, hcap, h4, hf', h6, hnd', hv', hsub'⟩
        show (st.pages ++ [page]).length = st.crawledCount + 1
        rw [List.length_append, h1]
        rfl

theorem crawl_loop_succ_nil (fetch : String → FetchOutcome) (baseDomain : String)
    (maxDepth maxPages fuel : Nat) (st : CrawlSt) (hq : st.queue = []) :
    crawl_loop fetch baseDomain maxDepth maxPages (fuel + 1) st = some st := by
  rw [crawl_loop, hq]

theorem crawl_loop_succ_cons (fetch : String → FetchOutcome) (baseDomain : String)
    (maxDepth maxPages fuel : Nat) (st : CrawlSt) (url : String) (depth : Nat)
    (rest : List (String × Nat)) (hq : st.queue = (url, depth) :: rest) :
    crawl_loop fetch baseDomain maxDepth maxPages (fuel + 1) st =
      if maxPages ≤ st.crawledCount then some st
      else if st.visited.contains (_normalize_url url) then
        crawl_loop fetch baseDomain maxDepth maxPages fuel { st with queue := rest }
      else
        crawl_loop fetch baseDomain maxDepth maxPages fuel
          (crawl_step fetch baseDomain maxDepth url depth
            { st with queue := rest, visited := _normalize_url url :: st.visited }) := by
  rw [crawl_loop, hq]

/-- A terminating run of the crawl loop preserves the crawl invariant. -/
theorem crawl_loop_inv (fetch : String → FetchOutcome) (baseDomain : String)
    (maxDepth maxPages : Nat) :
    ∀ (fuel : Nat) (st st' : CrawlSt), CrawlInv fetch maxDepth maxPages st →
      crawl_loop fetch baseDomain maxDepth maxPages fuel st = some st' →
      CrawlInv fetch maxDepth maxPages st'
  | 0, st, st', hInv, h => by
    unfold crawl_loop at h
    split at h
    · cases h
      exact hInv
    · cases h
  | fuel + 1, st, st', hInv, h => by
    cases hq : st.queue with
    | nil =>
      rw [crawl_loop_succ_nil fetch baseDomain maxDepth maxPages fuel st hq] at h
      cases h
      exact hInv
    | cons hd rest =>
      obtain ⟨url, depth⟩ := hd
      rw [crawl_loop_succ_cons fetch baseDomain maxDepth maxPages fuel st url depth rest hq] at h
      by_cases hcap : maxPages ≤ st.crawledCount
      · rw [if_pos hcap] at h
        cases h
        exact hInv
      · rw [if_neg hcap] at h
        obtain ⟨h1, h2, h3, h4, h5, h6, h7, h8, h9⟩ := hInv
        have hrest : ∀ e ∈ rest, e.2 ≤ maxDepth := by
          intro e he
          exact h4 e (by rw [hq]; exact List.mem_cons_of_mem _ he)
        by_cases hvis : st.visited.contains (_normalize_url url)
        · rw [if_pos hvis] at h
          exact crawl_loop_inv fetch baseDomain maxDepth maxPages fuel
            { st with queue := rest } st'
            ⟨h1, h2, h3, hrest, h5, h6, h7, h8, h9⟩ h
        · rw [if_neg hvis] at h
          have hnv : _normalize_url url ∉ st.visited := by
            intro hmem
            exact hvis (List.elem_eq_true_of_mem hmem)
          refine crawl_loop_inv fetch baseDomain maxDepth maxPages fuel _ st' ?_ h
          apply crawl_step_inv
          · exact ⟨h1, h2, h3, hrest, h5, h6, h7,
              fun e he => List.mem_cons_of_mem _ (h8 e he), h9⟩
          · exact Nat.lt_of_not_le hcap
          · exact h4 (url, depth) (by rw [hq]; exact List.mem_cons_self _ _)
          · exact List.mem_cons_self _ _
          · intro hin
            obtain ⟨e, hef, hee⟩ := List.mem_map.mp hin
            exact hnv (hee ▸ h8 e hef)

/-- The crawl invariant holds of the final state of every terminating run. -/
theorem crawl_inv_final (fetch : String → FetchOutcome) (startUrl : String)
    (maxDepth maxPages fuel : Nat) (st' : CrawlSt)
    (h : crawl fetch startUrl maxDepth maxPages fuel = some st') :
    CrawlInv fetch maxDepth maxPages st' := by
  refine crawl_loop_inv fetch (urlparse startUrl).netloc maxDepth maxPages fuel
    _ st' ?_ h
  refine ⟨rfl, rfl, Nat.zero_le _, ?_, ?_, ?_, List.nodup_nil, ?_, List.nil_sublist _⟩
  · intro e he
    rw [List.mem_singleton] at he
    subst he
    exact Nat.zero_le _
  · intro e he
    exact absurd he (List.not_mem_nil e)
  · intro e he
    exact absurd he (List.not_mem_nil e)
  · intro e he
    exact absurd he (List.not_mem_nil e)

-- ── C5: count bookkeeping and the page cap ───────────────────────────────────

/-- C5: every terminating crawl returns a state whose `pages`/`errors`
lengths equal `crawled_count`/`error_count`, whose `crawled_count` never
exceeds `max_pages`, and whose error entries all come from fetch failures
(entries left in the abandoned frontier are never recorded as errors). -/
theorem c5_crawl_counts (fetch : String → FetchOutcome) (startUrl : String)
    (maxDepth maxPages fuel : Nat) (st' : CrawlSt)
    (h : crawl fetch startUrl maxDepth maxPages fuel = some st') :
    st'.pages.length = st'.crawledCount ∧
    st'.errors.length = st'.errorCount ∧
    st'.crawledCount ≤ maxPages ∧
    ∀ e ∈ st'.errors, (fetch e.url).2.2 = some e.error := by
  obtain ⟨h1, h2, h3, _, _, h6, _, _, _⟩ :=
    crawl_inv_final fetch startUrl maxDepth maxPages fuel st' h
  exact ⟨h1, h2, h3, h6⟩

/-- C5 (witness): a crawl over an all-skip fetcher terminates with zero
counts, matching lists and no spurious errors. -/
theorem c5_crawl_counts_witness :
    crawl skipFetch "http://a/" 1 2 3 = some skipSt ∧
    (skipSt.pages.length = skipSt.crawledCount ∧
     skipSt.errors.length = skipSt.errorCount ∧
     skipSt.crawledCount ≤ 2 ∧
     ∀ e ∈ skipSt.errors, (skipFetch e.url).2.2 = some e.error) :=
  ⟨rfl, c5_crawl_counts skipFetch "http://a/" 1 2 3 skipSt rfl⟩

-- ── C6: depth discipline ─────────────────────────────────────────────────────

/-- C6: every link enqueued by the inner loop carries depth exactly
`parent_depth + 1`; in every terminating run all fetched entries and all
remaining frontier entries respect the `max_depth` ceiling (links are only
enqueued while `depth < max_depth`). -/
theorem c6_depth_discipline (fetch : String → FetchOutcome) (startUrl : String)
    (maxDepth maxPages fuel : Nat) (st' : CrawlSt)
    (h : crawl fetch startUrl maxDepth maxPages fuel = some st') :
    (∀ (links : List String) (b : String) (v : List String) (d : Nat),
      ∀ e ∈ enqueue_links links b v d, e.2 = d + 1) ∧
    (∀ e ∈ st'.fetched, e.2 ≤ maxDepth) ∧
    (∀ e ∈ st'.queue, e.2 ≤ maxDepth) := by
  obtain ⟨_, _, _, h4, h5, _, _, _, _⟩ :=
    crawl_inv_final fetch startUrl maxDepth maxPages fuel st' h
  exact ⟨enqueue_links_depth, h5, h4⟩

/-- C6 (witness): the two-page crawl fetches the seed at depth 0 and the
discovered link at depth 1, within the ceiling 2. -/
theorem c6_depth_discipline_witness :
    crawl c3fetch "http://a/" 2 10 5 = some c3st ∧
    ((∀ (links : List String) (b : String) (v : List String) (d : Nat),
        ∀ e ∈ enqueue_links links b v d, e.2 = d + 1) ∧
     (∀ e ∈ c3st.fetched, e.2 ≤ 2) ∧
     (∀ e ∈ c3st.queue, e.2 ≤ 2)) :=
  ⟨rfl, c6_depth_discipline c3fetch "http://a/" 2 10 5 c3st rfl⟩

-- ── C3: uniqueness of normalized URL keys ────────────────────────────────────

/-- C3 (counterexample): with a fetcher that redirects the seed to
`http://a/b` — which the crawl later also fetches directly — the returned
`pages` list records the final URL `http://a/b` twice, so a normalized key
repeats across `pages` + `errors`. -/
theorem c3_counterexample :
    crawl c3fetch "http://a/" 2 10 5 = some c3st ∧
    ¬ ((c3st.pages.map (fun p => _normalize_url p.url)
        ++ c3st.errors.map (fun e => _normalize_url e.url)).Nodup) :=
  ⟨rfl, by decide⟩

/-- C3 (amended): no normalized URL key is ever fetched twice in one crawl:
the normalized keys of the fetched (queued) URLs are pairwise distinct, and
hence so are the normalized keys of the error entries' URLs; page entries,
however, record final post-redirect URLs, which may coincide. -/
theorem c3_fetch_nodup (fetch : String → FetchOutcome) (startUrl : String)
    (maxDepth maxPages fuel : Nat) (st' : CrawlSt)
    (h : crawl fetch startUrl maxDepth maxPages fuel = some st') :
    (st'.fetched.map (fun e => _normalize_url e.1)).Nodup ∧
    (st'.errors.map (fun e => _normalize_url e.url)).Nodup := by
  obtain ⟨_, _, _, _, _, _, h7, _, h9⟩ :=
    crawl_inv_final fetch startUrl maxDepth maxPages fuel st' h
  refine ⟨h7, ?_⟩
  have hs := h9.map _normalize_url
  rw [List.map_map, List.map_map] at hs
  exact List.Nodup.sublist hs h7

/-- C3 (witness): in the redirecting two-page crawl the fetched queued URLs
`http://a/` and `http://a/b` have distinct normalized keys. -/
theorem c3_fetch_nodup_witness :
    crawl c3fetch "http://a/" 2 10 5 = some c3st ∧
    ((c3st.fetched.map (fun e => _normalize_url e.1)).Nodup ∧
     (c3st.errors.map (fun e => _normalize_url e.url)).Nodup) :=
  ⟨rfl, c3_fetch_nodup c3fetch "http://a/" 2 10 5 c3st rfl⟩

-- ── C1: the retry wrapper on the error string "timeout" ──────────────────────

/-- C1 (code behaviour at the failing input): the fetcher's own timeout
error string `"timeout"` is NOT classified retryable — the classifier looks
for the phrase `"timed out"` — so the retry wrapper returns the attempt-0
timeout error immediately, even though attempt 1 would have succeeded. -/
theorem c1_timeout_not_retried :
    is_retryable "timeout" = false ∧
    is_retryable "timed out" = true ∧
    fetch_page_with_retry c1fetch 2 = (none, [], some "timeout") := by
  have h1 : is_retryable "timeout" = false := by decide
  refine ⟨h1, by decide, ?_⟩
  rw [fetch_page_with_retry, retryLoop]
  simp [c1fetch, h1]

-- ── C2: non-HTML responses in the two paths ──────────────────────────────────

/-- C2 (counterexample): in the bulk extraction path a 200 response with
`content-type: application/pdf` produces an error entry — not a silent
skip. -/
theorem c2_counterexample :
    (_fetch_one_response dummyExtract "https://x.test/doc" pdfResponse).error
      = some "non-HTML content-type: application/pdf" := by
  decide

/-- C2 (amended): in the BFS crawl path a non-HTML response is silently
dropped regardless of status code, and a skip outcome leaves every counter
and list of the crawl state unchanged; in the bulk path a non-HTML response
produces an error entry (`"HTTP <status>"` when status ≥ 400, otherwise
`"non-HTML content-type: <ct[:60]>"`). -/
theorem c2_nonhtml_paths (extractP : Response → PageData)
    (extractL : Response → List String) (u : String) (r : Response)
    (h : hasSub r.contentType.data ("text/html".data) = false) :
    _fetch_page_response extractP extractL r = (none, [], none) ∧
    (_fetch_one_response extractP u r).error =
      some (if 400 ≤ r.status then "HTTP " ++ toString r.status
            else "non-HTML content-type: " ++ strTake 60 r.contentType) ∧
    (∀ (fetch : String → FetchOutcome) (b : String) (maxD : Nat)
        (url : String) (dep : Nat) (st : CrawlSt),
      fetch url = (none, [], none) →
      crawl_step fetch b maxD url dep st
        = { st with fetched := st.fetched ++ [(url, dep)] }) := by
  refine ⟨?_, ?_, ?_⟩
  · unfold _fetch_page_response
    rw [if_pos (by rw [h]; decide)]
  · by_cases hs : 400 ≤ r.status
    · simp [_fetch_one_response, hs]
    · simp [_fetch_one_response, hs, h]
  · intro fetch b maxD url dep st hf
    simp [crawl_step, hf, truthy]

/-- C2 (witness): the PDF response instantiates the amended statement. -/
theorem c2_nonhtml_paths_witness :
    hasSub pdfResponse.contentType.data ("text/html".data) = false ∧
    (_fetch_page_response dummyExtract dummyLinks pdfResponse = (none, [], none) ∧
     (_fetch_one_response dummyExtract "https://x.test/doc" pdfResponse).error =
       some (if 400 ≤ pdfResponse.status then "HTTP " ++ toString pdfResponse.status
             else "non-HTML content-type: " ++ strTake 60 pdfResponse.contentType) ∧
     (∀ (fetch : String → FetchOutcome) (b : String) (maxD : Nat)
         (url : String) (dep : Nat) (st : CrawlSt),
       fetch url = (none, [], none) →
       crawl_step fetch b maxD url dep st
         = { st with fetched := st.fetched ++ [(url, dep)] })) :=
  ⟨by decide,
   c2_nonhtml_paths dummyExtract dummyLinks "https://x.test/doc" pdfResponse (by decide)⟩

-- ── C8: the URL normalizer identifies slash/fragment variants ────────────────

theorem rstripSlash_append_slash (s : String) : rstripSlash (s ++ "/") = rstripSlash s := by
  unfold rstripSlash
  congr 1
  rw [String.data_append]
  rw [List.reverse_append]
  simp [List.dropWhile]

theorem normalize_eq_of_parts (u : String) :
    _normalize_url u = lowerStr (urlunparse
      ⟨(urlparse u).scheme, (urlparse u).netloc,
       (if rstripSlash (urlparse u).path = "" then "/" else rstripSlash (urlparse u).path),
       (urlparse u).params, (urlparse u).query, ""⟩) := rfl

/-- C8: two URLs whose parses agree on scheme, netloc, params and query and
whose paths differ only by a trailing slash (or not at all — in particular
when only the fragment differs) normalize to the same key; the root path
normalizes to `/` and a non-root trailing slash is stripped. -/
theorem c8_normalize_key_equiv :
    (∀ u1 u2 : String,
      (urlparse u2).scheme = (urlparse u1).scheme →
      (urlparse u2).netloc = (urlparse u1).netloc →
      (urlparse u2).params = (urlparse u1).params →
      (urlparse u2).query = (urlparse u1).query →
      ((urlparse u2).path = (urlparse u1).path ++ "/" ∨
        (urlparse u2).path = (urlparse u1).path) →
      _normalize_url u2 = _normalize_url u1) ∧
    _normalize_url "https://example.com" = "https://example.com/" ∧
    _normalize_url "https://example.com/" = "https://example.com/" ∧
    _normalize_url "https://example.com/a/" = _normalize_url "https://example.com/a" := by
  refine ⟨?_, by decide, by decide, by decide⟩
  intro u1 u2 hs hn hp hq hpath
  rw [normalize_eq_of_parts u1, normalize_eq_of_parts u2, hs, hn, hp, hq]
  rcases hpath with hpath | hpath
  · rw [hpath, rstripSlash_append_slash]
  · rw [hpath]

/-- C8 (witness): `https://Example.com/a/#x` and `https://Example.com/a`
differ by a trailing slash and a fragment and share one normalized key. -/
theorem c8_normalize_key_equiv_witness :
    (urlparse "https://Example.com/a/#x").path
      = (urlparse "https://Example.com/a").path ++ "/" ∧
    _normalize_url "https://Example.com/a/#x" = _normalize_url "https://Example.com/a" := by
  refine ⟨by decide, ?_⟩
  exact c8_normalize_key_equiv.1 "https://Example.com/a" "https://Example.com/a/#x"
    (by decide) (by decide) (by decide) (by decide) (Or.inl (by decide))

-- ── C9: the domain scope filter ──────────────────────────────────────────────

/-- C9: `_same_domain` returns true exactly when the link's host equals the
base domain, or equals `www.` + base domain, or the base domain equals
`www.` + the link's host (all compared lower-cased); in particular the two
documented examples hold. -/
theorem c9_domain_scope :
    (∀ url baseDomain : String,
      _same_domain url baseDomain = true ↔
        (lowerStr (urlparse url).netloc = lowerStr baseDomain ∨
         lowerStr (urlparse url).netloc = "www." ++ lowerStr baseDomain ∨
         lowerStr baseDomain = "www." ++ lowerStr (urlparse url).netloc)) ∧
    _same_domain "https://www.example.com/x" "example.com" = true ∧
    _same_domain "https://other.com/x" "example.com" = false := by
  refine ⟨?_, by decide, by decide⟩
  intro url bd
  simp only [_same_domain, Bool.or_eq_true, beq_iff_eq]
  tauto

end Crawler
